import Mathlib

/-!
Verification of the drawing application's geometry and region-detection
engine.  The definitions below are shallow embeddings of the JavaScript
functions in `src/element-utils.js`, `src/app/DrawingBoard.js` and the
mouse-handler module: JavaScript numbers are modelled as rationals
(`ℚ`), pixel indices as integers (`ℤ`), arrays as lists, thrown
exceptions as `Except.error`, and `null` results as `Option`.
Real-valued geometry (`Math.sqrt`) is modelled with `Real.sqrt`; every
definition that the code branches on is kept computable, with the
square-root comparisons replaced by the equivalent squared comparisons
(the equivalence is proved, see `distWithin_iff`).
-/

namespace DrawingApp

/-! ### History store (`useHistory` in `element-utils.js`, lines 408-429)

The React hook keeps `history : S[]` and `index : ℕ`.  `setState`
(commit) either overwrites the snapshot at the cursor in place
(`historyCopy[index] = newState`) or truncates with
`slice(0, index + 1)` and appends, advancing the cursor.  The
functional-updater form of `action` is orthogonal to the store's
behaviour and is not modelled: commits carry the new state directly. -/

structure History (S : Type) where
  history : List S
  index : ℕ

/-- `useHistory(initialState)`: history starts as `[initialState]` with
cursor `0`. -/
def initialHistory {S : Type} (s : S) : History S :=
  { history := [s], index := 0 }

/-- `setState(newState, overwrite)`.  Overwrite path:
`historyCopy[index] = newState` (in-place replacement, embedded as
`List.set`).  Non-overwrite path: `[...history].slice(0, index + 1)`
(embedded as `List.take (index + 1)`) followed by appending `newState`
and `setIndex(prev => prev + 1)`. -/
def setState {S : Type} (h : History S) (newState : S) (overwrite : Bool) : History S :=
  if overwrite then
    { h with history := h.history.set h.index newState }
  else
    { history := h.history.take (h.index + 1) ++ [newState], index := h.index + 1 }

/-- `undo()`: `index > 0 && setIndex(prev => prev - 1)`. -/
def undo {S : Type} (h : History S) : History S :=
  if 0 < h.index then { h with index := h.index - 1 } else h

/-- `redo()`: `index < history.length - 1 && setIndex(prev => prev + 1)`. -/
def redo {S : Type} (h : History S) : History S :=
  if h.index < h.history.length - 1 then { h with index := h.index + 1 } else h

/-- `history[index]`, the snapshot the hook returns. -/
def current {S : Type} (h : History S) : Option S :=
  h.history.get? h.index

/-! ### Zoom (`onZoom` in the app components)

`setScale(prev => Math.min(Math.max(prev + delta, 0.1), 2))`. -/

/-- One zoom step applied to the previous scale. -/
def onZoom (prevScale delta : ℚ) : ℚ :=
  min (max (prevScale + delta) (1 / 10)) 2

/-! ### Coordinate canonicalization
(`adjustElementCoordinates`, `element-utils.js` lines 80-95) -/

inductive ElementType where
  | line
  | rectangle
  | pencil
  | text
  | capture
deriving DecidableEq

/-- The `{x1, y1, x2, y2}` record the JavaScript functions pass around. -/
structure Coords where
  x1 : ℚ
  y1 : ℚ
  x2 : ℚ
  y2 : ℚ
deriving DecidableEq

/-- `adjustElementCoordinates(element)`: the JavaScript destructures
`{type, x1, y1, x2, y2}` from the element; we pass the type and the
coordinate record.  Rectangles get `min`/`max`-sorted corners; every
other type takes the `else` branch, which keeps the endpoint order iff
`x1 < x2 || (x1 === x2 && y1 < y2)` and otherwise swaps the
endpoints. -/
def adjustElementCoordinates (type : ElementType) (c : Coords) : Coords :=
  if type = ElementType.rectangle then
    { x1 := min c.x1 c.x2, y1 := min c.y1 c.y2, x2 := max c.x1 c.x2, y2 := max c.y1 c.y2 }
  else
    if c.x1 < c.x2 ∨ (c.x1 = c.x2 ∧ c.y1 < c.y2) then c
    else { x1 := c.x2, y1 := c.y2, x2 := c.x1, y2 := c.y1 }

/-! ### Resize engine (`resizedCoordinates`, `element-utils.js` lines 112-128)

The handle tag is one of the strings produced by `positionWithinElement`;
the `default` branch returns `null`, embedded as `none`. -/

/-- `resizedCoordinates(clientX, clientY, position, coordinates)`. -/
def resizedCoordinates (clientX clientY : ℚ) (position : String) (c : Coords) :
    Option Coords :=
  if position = "tl" ∨ position = "start" then
    some { x1 := clientX, y1 := clientY, x2 := c.x2, y2 := c.y2 }
  else if position = "tr" then
    some { x1 := c.x1, y1 := clientY, x2 := clientX, y2 := c.y2 }
  else if position = "bl" then
    some { x1 := clientX, y1 := c.y1, x2 := c.x2, y2 := clientY }
  else if position = "br" ∨ position = "end" then
    some { x1 := c.x1, y1 := c.y1, x2 := clientX, y2 := clientY }
  else
    none

/-! ## Theorems for the history store, zoom, canonicalization and resize -/

lemma setState_overwrite_length {S : Type} (h : History S) (s : S) :
    (setState h s true).history.length = h.history.length := by
  simp [setState]

lemma foldl_overwrite_length {S : Type} (xs : List S) :
    ∀ h : History S,
      (xs.foldl (fun h x => setState h x true) h).history.length = h.history.length := by
  induction xs with
  | nil => intro h; rfl
  | cons x xs ih =>
      intro h
      simpa [List.foldl_cons, setState_overwrite_length] using
        (ih (setState h x true)).trans (setState_overwrite_length h x)

/-- Claim C1: an overwrite commit replaces the snapshot at the cursor in
place and never changes the history length, while a non-overwrite commit
truncates everything after the cursor, appends the new state and
advances the cursor by one; after `commit(s1)`, `commit(s2)`, `undo()`,
`commit(s3)` the current snapshot is `s3` and `redo()` is a no-op, and
one `commit(base)` followed by `N` overwrite commits leaves the history
length at exactly `2`. -/
theorem history_commit_semantics :
    (∀ (S : Type) (h : History S) (s : S), h.index < h.history.length →
        (setState h s true).history = h.history.set h.index s ∧
        (setState h s true).history.length = h.history.length ∧
        (setState h s true).index = h.index) ∧
    (∀ (S : Type) (h : History S) (s : S),
        (setState h s false).history = h.history.take (h.index + 1) ++ [s] ∧
        (setState h s false).index = h.index + 1) ∧
    (∀ (S : Type) (s0 s1 s2 s3 : S),
        current (setState (undo (setState (setState (initialHistory s0) s1 false) s2 false))
            s3 false) = some s3 ∧
        redo (setState (undo (setState (setState (initialHistory s0) s1 false) s2 false))
            s3 false) =
          setState (undo (setState (setState (initialHistory s0) s1 false) s2 false))
            s3 false) ∧
    (∀ (S : Type) (s0 base : S) (xs : List S),
        (xs.foldl (fun h x => setState h x true)
            (setState (initialHistory s0) base false)).history.length = 2) := by
  refine ⟨?_, ?_, ?_, ?_⟩
  · intro S h s _
    exact ⟨rfl, by simp [setState], rfl⟩
  · intro S h s
    exact ⟨rfl, rfl⟩
  · intro S s0 s1 s2 s3
    refine ⟨rfl, ?_⟩
    simp [initialHistory, setState, undo, redo, current]
  · intro S s0 base xs
    rw [foldl_overwrite_length]
    rfl

/-- Witness for C1 at concrete inputs: a two-snapshot history with the
cursor on the second snapshot. -/
theorem history_commit_semantics_witness :
    (setState (⟨[0, 1], 1⟩ : History ℕ) 7 true).history = [0, 7] ∧
    (setState (⟨[0, 1], 1⟩ : History ℕ) 7 true).history.length = 2 := by
  obtain ⟨h1, h2, -⟩ :=
    history_commit_semantics.1 ℕ (⟨[0, 1], 1⟩ : History ℕ) 7 (by decide)
  exact ⟨by rw [h1]; rfl, by rw [h2]; rfl⟩

lemma onZoom_bounds (s d : ℚ) : 1 / 10 ≤ onZoom s d ∧ onZoom s d ≤ 2 := by
  unfold onZoom
  constructor
  · exact le_min (le_max_right _ _) (by norm_num)
  · exact min_le_right _ _

/-- Claim C9: every zoom step lands in the clamp interval `[0.1, 2]`,
so every scale reachable from the initial scale `1` by any sequence of
zoom deltas stays within these bounds. -/
theorem onZoom_scale_clamped :
    (∀ s d : ℚ, 1 / 10 ≤ onZoom s d ∧ onZoom s d ≤ 2) ∧
    (∀ ds : List ℚ, 1 / 10 ≤ ds.foldl onZoom 1 ∧ ds.foldl onZoom 1 ≤ 2) := by
  refine ⟨onZoom_bounds, ?_⟩
  intro ds
  induction ds using List.reverseRecOn with
  | nil => norm_num
  | append_singleton ds d _ =>
      rw [List.foldl_append]
      exact onZoom_bounds _ d

lemma adjust_rect_eq (c : Coords) :
    adjustElementCoordinates ElementType.rectangle c =
      { x1 := min c.x1 c.x2, y1 := min c.y1 c.y2, x2 := max c.x1 c.x2, y2 := max c.y1 c.y2 } := by
  unfold adjustElementCoordinates
  rw [if_pos rfl]

lemma adjust_nonrect_eq {t : ElementType} (ht : ¬t = ElementType.rectangle)
    (a b d e : ℚ) :
    adjustElementCoordinates t ⟨a, b, d, e⟩ =
      if a < d ∨ (a = d ∧ b < e) then ⟨a, b, d, e⟩ else ⟨d, e, a, b⟩ := by
  unfold adjustElementCoordinates
  rw [if_neg ht]

lemma adjust_nonrect_degenerate {a b d e : ℚ}
    (h1 : ¬(a < d ∨ (a = d ∧ b < e))) (h2 : ¬(d < a ∨ (d = a ∧ e < b))) :
    a = d ∧ b = e := by
  push_neg at h1 h2
  have hx : a = d := le_antisymm h2.1 h1.1
  exact ⟨hx, le_antisymm (h2.2 hx.symm) (h1.2 hx)⟩

/-- Claim C5: canonicalization normalizes and is idempotent — rectangles
come out with `x1 ≤ x2` and `y1 ≤ y2`; lines come out with the
lexicographically smaller endpoint first (smaller `x`, ties broken by
smaller `y`), independently of draw direction, and the result is always
one of the two input orders; re-canonicalizing any element's canonical
coordinates is a no-op. -/
theorem adjustElementCoordinates_canonicalizes :
    (∀ c : Coords,
        (adjustElementCoordinates ElementType.rectangle c).x1 ≤
          (adjustElementCoordinates ElementType.rectangle c).x2 ∧
        (adjustElementCoordinates ElementType.rectangle c).y1 ≤
          (adjustElementCoordinates ElementType.rectangle c).y2) ∧
    (∀ c : Coords,
        ((adjustElementCoordinates ElementType.line c).x1 <
            (adjustElementCoordinates ElementType.line c).x2 ∨
          ((adjustElementCoordinates ElementType.line c).x1 =
              (adjustElementCoordinates ElementType.line c).x2 ∧
            (adjustElementCoordinates ElementType.line c).y1 ≤
              (adjustElementCoordinates ElementType.line c).y2)) ∧
        (adjustElementCoordinates ElementType.line c = c ∨
          adjustElementCoordinates ElementType.line c =
            { x1 := c.x2, y1 := c.y2, x2 := c.x1, y2 := c.y1 })) ∧
    (∀ c : Coords,
        adjustElementCoordinates ElementType.line c =
          adjustElementCoordinates ElementType.line
            { x1 := c.x2, y1 := c.y2, x2 := c.x1, y2 := c.y1 }) ∧
    (∀ (t : ElementType) (c : Coords),
        adjustElementCoordinates t (adjustElementCoordinates t c) =
          adjustElementCoordinates t c) := by
  have hline : ¬ElementType.line = ElementType.rectangle := by decide
  refine ⟨?_, ?_, ?_, ?_⟩
  · intro c
    rw [adjust_rect_eq]
    exact ⟨min_le_max, min_le_max⟩
  · intro c
    obtain ⟨a, b, d, e⟩ := c
    rw [adjust_nonrect_eq hline]
    split_ifs with h
    all_goals dsimp only
    · rcases h with h | ⟨h1, h2⟩
      · exact ⟨Or.inl h, Or.inl rfl⟩
      · exact ⟨Or.inr ⟨h1, le_of_lt h2⟩, Or.inl rfl⟩
    · push_neg at h
      refine ⟨?_, Or.inr rfl⟩
      rcases h.1.lt_or_eq with hx | hx
      · exact Or.inl hx
      · exact Or.inr ⟨hx, h.2 hx.symm⟩
  · intro c
    obtain ⟨a, b, d, e⟩ := c
    dsimp only
    rw [adjust_nonrect_eq hline, adjust_nonrect_eq hline]
    by_cases h1 : a < d ∨ (a = d ∧ b < e)
    · have hswap : ¬(d < a ∨ (d = a ∧ e < b)) := by
        rcases h1 with h1 | ⟨h1a, h1b⟩
        · simp only [not_or, not_lt, not_and]
          exact ⟨le_of_lt h1, fun hda => absurd hda.symm (ne_of_lt h1)⟩
        · simp only [not_or, not_lt, not_and]
          exact ⟨le_of_eq h1a, fun _ => le_of_lt h1b⟩
      rw [if_pos h1, if_neg hswap]
    · rw [if_neg h1]
      by_cases h2 : d < a ∨ (d = a ∧ e < b)
      · rw [if_pos h2]
      · rw [if_neg h2]
        obtain ⟨hx, hy⟩ := adjust_nonrect_degenerate h1 h2
        rw [hx, hy]
  · intro t c
    by_cases ht : t = ElementType.rectangle
    · subst ht
      rw [adjust_rect_eq, adjust_rect_eq]
      simp only [Coords.mk.injEq]
      exact ⟨min_eq_left min_le_max, min_eq_left min_le_max,
        max_eq_right min_le_max, max_eq_right min_le_max⟩
    · obtain ⟨a, b, d, e⟩ := c
      rw [adjust_nonrect_eq ht a b d e]
      by_cases h1 : a < d ∨ (a = d ∧ b < e)
      · rw [if_pos h1, adjust_nonrect_eq ht a b d e, if_pos h1]
      · rw [if_neg h1, adjust_nonrect_eq ht d e a b]
        by_cases h2 : d < a ∨ (d = a ∧ e < b)
        · rw [if_pos h2]
        · rw [if_neg h2]
          obtain ⟨hx, hy⟩ := adjust_nonrect_degenerate h1 h2
          rw [hx, hy]

/-- Claim C8: the resize computation moves exactly the corners named by
the handle tag — `"tl"`/`"start"` set `(x1, y1)`, `"tr"` sets
`(y1, x2)`, `"bl"` sets `(x1, y2)`, `"br"`/`"end"` set `(x2, y2)` — and
leaves the remaining coordinates unchanged, while every other tag yields
`none`. -/
theorem resizedCoordinates_moves_named_corner :
    ∀ (cx cy : ℚ) (c : Coords),
      resizedCoordinates cx cy "tl" c = some { x1 := cx, y1 := cy, x2 := c.x2, y2 := c.y2 } ∧
      resizedCoordinates cx cy "start" c = some { x1 := cx, y1 := cy, x2 := c.x2, y2 := c.y2 } ∧
      resizedCoordinates cx cy "tr" c = some { x1 := c.x1, y1 := cy, x2 := cx, y2 := c.y2 } ∧
      resizedCoordinates cx cy "bl" c = some { x1 := cx, y1 := c.y1, x2 := c.x2, y2 := cy } ∧
      resizedCoordinates cx cy "br" c = some { x1 := c.x1, y1 := c.y1, x2 := cx, y2 := cy } ∧
      resizedCoordinates cx cy "end" c = some { x1 := c.x1, y1 := c.y1, x2 := cx, y2 := cy } ∧
      ∀ p : String, p ∉ (["tl", "start", "tr", "bl", "br", "end"] : List String) →
        resizedCoordinates cx cy p c = none := by
  intro cx cy c
  refine ⟨rfl, rfl, rfl, rfl, rfl, rfl, ?_⟩
  intro p hp
  simp only [List.mem_cons, List.not_mem_nil, or_false] at hp
  push_neg at hp
  obtain ⟨h1, h2, h3, h4, h5, h6⟩ := hp
  simp [resizedCoordinates, h1, h2, h3, h4, h5, h6]

/-- Witness for C8: the internally generated tag `"inside"` (and any
other unlisted tag) yields `none` at a concrete input. -/
theorem resizedCoordinates_moves_named_corner_witness :
    resizedCoordinates 3 4 "inside" { x1 := 0, y1 := 1, x2 := 2, y2 := 5 } = none :=
  (resizedCoordinates_moves_named_corner 3 4 { x1 := 0, y1 := 1, x2 := 2, y2 := 5 }).2.2.2.2.2.2
    "inside" (by decide)

/-! ### Element model (`createElement`, `element-utils.js` lines 6-24)

The tagged union of drawable elements.  `roughElement` (opaque data of
the external rendering library) is not modelled.  Line and rectangle
elements carry `size : Option ℚ` because `createElement` leaves `size`
unset while `updateElement` assigns `elementsCopy[id].size = pencilSize`
afterwards. -/

structure PencilPoint where
  x : ℚ
  y : ℚ
  isErased : Bool
deriving DecidableEq

inductive Element where
  | line (id : ℕ) (x1 y1 x2 y2 : ℚ) (size : Option ℚ)
  | rectangle (id : ℕ) (x1 y1 x2 y2 : ℚ) (size : Option ℚ)
  | pencil (id : ℕ) (points : List PencilPoint) (size : ℚ)
  | text (id : ℕ) (x1 y1 x2 y2 : ℚ) (content : String)
  | capture (id : ℕ) (x1 y1 x2 y2 : ℚ)
deriving DecidableEq

/-- The element's `id` property. -/
def Element.id : Element → ℕ
  | .line i _ _ _ _ _ => i
  | .rectangle i _ _ _ _ _ => i
  | .pencil i _ _ => i
  | .text i _ _ _ _ _ => i
  | .capture i _ _ _ _ => i

/-- `createElement(id, x1, y1, x2, y2, type, pencilSize)`.  The
JavaScript `default` branch throws for a tag outside the five known
ones; `ElementType` ranges over exactly those five tags, so that branch
is unrepresentable here. -/
def createElement (id : ℕ) (x1 y1 x2 y2 : ℚ) (type : ElementType) (pencilSize : ℚ) :
    Element :=
  match type with
  | .line => .line id x1 y1 x2 y2 none
  | .rectangle => .rectangle id x1 y1 x2 y2 none
  | .pencil => .pencil id [{ x := x1, y := y1, isErased := false }] pencilSize
  | .text => .text id x1 y1 x2 y2 ""
  | .capture => .capture id x1 y1 x2 y2

/-! ### Hit testing (`positionWithinElement`, `element-utils.js` lines 43-70)

`distance` is `Math.sqrt`-based, hence real-valued; the hit test's
`switch` has cases for line, rectangle, pencil and text only — its
`default` branch throws `Type not recognised`, which is what a
`capture` element reaches. -/

/-- `distance(a, b)`, Euclidean distance of two points. -/
noncomputable def distance (a b : ℚ × ℚ) : ℝ :=
  Real.sqrt (((a.1 : ℝ) - (b.1 : ℝ)) ^ 2 + ((a.2 : ℝ) - (b.2 : ℝ)) ^ 2)

/-- `nearPoint(x, y, x1, y1, name)`: a square tolerance box of
half-width 5. -/
def nearPoint (x y x1 y1 : ℚ) (name : String) : Option String :=
  if |x - x1| < 5 ∧ |y - y1| < 5 then some name else none

/-- `onLine(x1, y1, x2, y2, x, y, maxDistance)`: the string-slack
collinearity test. -/
noncomputable def onLine (x1 y1 x2 y2 x y : ℚ) (maxDistance : ℚ) : Option String :=
  let offset := distance (x1, y1) (x2, y2) -
    (distance (x1, y1) (x, y) + distance (x2, y2) (x, y))
  if |offset| < (maxDistance : ℝ) then some "inside" else none

/-- `positionWithinElement(x, y, element)`.  JavaScript `||`-chaining of
nullable strings is `Option.orElse`; the `default: throw` branch is
`Except.error`. -/
noncomputable def positionWithinElement (x y : ℚ) (e : Element) :
    Except String (Option String) :=
  match e with
  | .line _ x1 y1 x2 y2 _ =>
      let onRes := onLine x1 y1 x2 y2 x y 1
      let start := nearPoint x y x1 y1 "start"
      let stop := nearPoint x y x2 y2 "end"
      .ok (start.orElse fun _ => stop.orElse fun _ => onRes)
  | .rectangle _ x1 y1 x2 y2 _ =>
      let topLeft := nearPoint x y x1 y1 "tl"
      let topRight := nearPoint x y x2 y1 "tr"
      let bottomLeft := nearPoint x y x1 y2 "bl"
      let bottomRight := nearPoint x y x2 y2 "br"
      let inside : Option String :=
        if x1 ≤ x ∧ x ≤ x2 ∧ y1 ≤ y ∧ y ≤ y2 then some "inside" else none
      .ok (topLeft.orElse fun _ => topRight.orElse fun _ =>
        bottomLeft.orElse fun _ => bottomRight.orElse fun _ => inside)
  | .pencil _ points _ =>
      let betweenAnyPoint := points.enum.any fun pi =>
        match points.get? (pi.1 + 1) with
        | none => false
        | some np => (onLine pi.2.x pi.2.y np.x np.y x y 5).isSome
      .ok (if betweenAnyPoint then some "inside" else none)
  | .text _ x1 y1 x2 y2 _ =>
      .ok (if x1 ≤ x ∧ x ≤ x2 ∧ y1 ≤ y ∧ y ≤ y2 then some "inside" else none)
  | .capture _ _ _ _ _ =>
      .error "Type not recognised: capture"

/-! ### Orchestrator collection operations (mouse-handler module)

The operations of `handleMouseDown`/`handleMouseMove` that touch the
element collection.  The eraser target is the id found by the hit test;
`updateElement`'s text branch takes the externally measured text width
as a parameter.  The pencil branch reads `.points` of the stored
element, which in JavaScript raises a `TypeError` when that element is
not a pencil — embedded as `none`, as is `updateElement`'s
`default: throw` branch (reached by the `capture` tag). -/

def defaultElement : Element := .capture 0 0 0 0 0

/-- The element-collection invariant: every element's `id` equals its
index in the collection. -/
def idsMatch (l : List Element) : Prop :=
  ∀ i, i < l.length → (l.getD i defaultElement).id = i

instance (l : List Element) : Decidable (idsMatch l) := by
  unfold idsMatch
  infer_instance

/-- Creation branch of `handleMouseDown`: `const id = elements.length`
followed by `setElements(prev => [...prev, element])`. -/
def addNewElement (l : List Element) (x1 y1 x2 y2 : ℚ) (tool : ElementType)
    (pencilSize : ℚ) : List Element :=
  l ++ [createElement l.length x1 y1 x2 y2 tool pencilSize]

/-- Eraser branch: `prevState.filter(el => el.id !== elementToErase.id)`. -/
def eraseElement (l : List Element) (targetId : ℕ) : List Element :=
  l.filter fun el => el.id ≠ targetId

/-- `updateElement(id, x1, y1, x2, y2, type, options)` from the mouse
handlers: line/rectangle replace the slot with `createElement` and then
set its `size`; pencil appends `{x: x2, y: y2}` to the stored points
(the pushed point has no `isErased` flag, i.e. it is falsy — modelled
as `false`); text rebuilds the element from the measured text extent. -/
def updateElement (l : List Element) (id : ℕ) (x1 y1 x2 y2 : ℚ)
    (type : ElementType) (pencilSize : ℚ) (textValue : String) (textWidth : ℚ) :
    Option (List Element) :=
  match type with
  | .line => some (l.set id (Element.line id x1 y1 x2 y2 (some pencilSize)))
  | .rectangle => some (l.set id (Element.rectangle id x1 y1 x2 y2 (some pencilSize)))
  | .pencil =>
      match l.getD id defaultElement with
      | .pencil pid pts sz =>
          some (l.set id (.pencil pid (pts ++ [{ x := x2, y := y2, isErased := false }]) sz))
      | _ => none
  | .text => some (l.set id (.text id x1 y1 (x1 + textWidth) (y1 + 24) textValue))
  | .capture => none

/-! ## Theorems for hit testing and the id-equals-index invariant -/

/-- Claim C6 (the hit test and the `capture` tag): `positionWithinElement`
has no `capture` case, so hit-testing any capture element reaches the
`default` branch and throws `Type not recognised: capture` instead of
behaving like a rectangle. -/
theorem positionWithinElement_capture_throws :
    ∀ (x y : ℚ) (id : ℕ) (x1 y1 x2 y2 : ℚ),
      positionWithinElement x y (Element.capture id x1 y1 x2 y2) =
        Except.error "Type not recognised: capture" :=
  fun _ _ _ _ _ _ _ => rfl

lemma createElement_id (id : ℕ) (x1 y1 x2 y2 : ℚ) (t : ElementType) (ps : ℚ) :
    (createElement id x1 y1 x2 y2 t ps).id = id := by
  cases t <;> rfl

lemma idsMatch_append {l : List Element} {e : Element}
    (hl : idsMatch l) (he : e.id = l.length) : idsMatch (l ++ [e]) := by
  intro i hi
  rw [List.length_append, List.length_singleton] at hi
  rcases lt_or_ge i l.length with h | h
  · rw [List.getD_append _ _ _ _ h]
    exact hl i h
  · have hie : i = l.length := le_antisymm (Nat.lt_succ_iff.mp hi) h
    subst hie
    rw [List.getD_append_right _ _ _ _ h, Nat.sub_self]
    exact he

lemma idsMatch_set {l : List Element} {i : ℕ} {e : Element}
    (hl : idsMatch l) (he : e.id = i) : idsMatch (l.set i e) := by
  intro j hj
  rw [List.length_set] at hj
  rcases eq_or_ne i j with hij | hij
  · subst hij
    rw [List.getD_eq_getElem _ _ (by simpa using hj), List.getElem_set_self (by simpa using hj)]
    exact he
  · rw [List.getD_eq_getElem _ _ (by simpa using hj),
      List.getElem_set_ne hij, ← List.getD_eq_getElem _ _ hj]
    exact hl j hj

/-- Claim C7, amended: the id-equals-index invariant is preserved by
element creation (id assigned as the collection length) and by every
successful `updateElement` (which writes slot `id` with an element whose
id is `id`), but it is not preserved by eraser deletion in general:
filtering out an element that is not the last one shifts the ids of
everything after it away from their indices. -/
theorem elementId_invariant_amended :
    (∀ (l : List Element) (x1 y1 x2 y2 : ℚ) (tool : ElementType) (ps : ℚ),
        idsMatch l → idsMatch (addNewElement l x1 y1 x2 y2 tool ps)) ∧
    (∀ (l : List Element) (id : ℕ) (x1 y1 x2 y2 : ℚ) (t : ElementType) (ps : ℚ)
        (tv : String) (tw : ℚ) (l' : List Element),
        idsMatch l → updateElement l id x1 y1 x2 y2 t ps tv tw = some l' → idsMatch l') ∧
    (∃ (l : List Element) (target : ℕ),
        idsMatch l ∧ ¬idsMatch (eraseElement l target)) := by
  refine ⟨?_, ?_, ?_⟩
  · intro l x1 y1 x2 y2 tool ps hl
    exact idsMatch_append hl (createElement_id _ _ _ _ _ _ _)
  · intro l id x1 y1 x2 y2 t ps tv tw l' hl hup
    cases t with
    | line =>
        obtain rfl : l.set id (Element.line id x1 y1 x2 y2 (some ps)) = l' :=
          Option.some.inj hup
        exact idsMatch_set hl rfl
    | rectangle =>
        obtain rfl : l.set id (Element.rectangle id x1 y1 x2 y2 (some ps)) = l' :=
          Option.some.inj hup
        exact idsMatch_set hl rfl
    | pencil =>
        simp only [updateElement] at hup
        rcases hg : l.getD id defaultElement with _ | _ | ⟨pid, pts, sz⟩ | _ | _ <;>
          rw [hg] at hup
        case pencil =>
          obtain rfl : l.set id
              (Element.pencil pid (pts ++ [{ x := x2, y := y2, isErased := false }]) sz) = l' :=
            Option.some.inj hup
          rcases lt_or_ge id l.length with hid | hid
          · have hpid : pid = id := by
              have h := hl id hid
              rw [hg] at h
              exact h
            subst hpid
            exact idsMatch_set hl rfl
          · rw [List.set_eq_of_length_le hid]
            exact hl
        all_goals exact Option.noConfusion hup
    | text =>
        obtain rfl : l.set id (Element.text id x1 y1 (x1 + tw) (y1 + 24) tv) = l' :=
          Option.some.inj hup
        exact idsMatch_set hl rfl
    | capture => exact absurd hup (by simp [updateElement])
  · refine ⟨[Element.capture 0 0 0 0 0, Element.capture 1 0 0 0 0], 0, by decide, by decide⟩

/-- Witness for the amended C7 theorem: creating an element in an empty
collection and updating a one-element collection both keep id = index. -/
theorem elementId_invariant_amended_witness :
    idsMatch (addNewElement [] 0 0 0 0 ElementType.rectangle 3) ∧
    idsMatch [Element.line 0 0 0 1 1 (some 3)] :=
  ⟨elementId_invariant_amended.1 [] 0 0 0 0 ElementType.rectangle 3 (by decide),
    elementId_invariant_amended.2.1 [Element.capture 0 0 0 0 0] 0 0 0 1 1
      ElementType.line 3 "" 0 [Element.line 0 0 0 1 1 (some 3)] (by decide) (by decide)⟩

/-- Counterexample for C7 as stated: a two-element collection satisfying
the invariant, where erasing the element with id `0` leaves the element
with id `1` at index `0`, violating the invariant. -/
theorem elementId_invariant_counterexample :
    idsMatch [Element.capture 0 0 0 0 0, Element.capture 1 0 0 0 0] ∧
    eraseElement [Element.capture 0 0 0 0 0, Element.capture 1 0 0 0 0] 0 =
      [Element.capture 1 0 0 0 0] ∧
    ¬idsMatch (eraseElement [Element.capture 0 0 0 0 0, Element.capture 1 0 0 0 0] 0) :=
  ⟨by decide, by decide, by decide⟩

/-! ### Region detector (`element-utils.js` lines 253-406)

A raster is modelled by its dimensions and its alpha channel indexed by
pixel coordinates (the code reads `data[(y * width + x) * 4 + 3]`);
pixel coordinates are integers because the 8-neighbourhood of a border
pixel steps to `-1`, which `isWithinBounds` rejects.  Region
coordinates are rationals, since `calculateRegionDistance` is also
applied to fractional boxes elsewhere in the codebase. -/

structure ImageData where
  width : ℕ
  height : ℕ
  alpha : ℤ → ℤ → ℕ

/-- `isPixelNonTransparent(getPixel(imageData, x, y))`: alpha > 0. -/
def isPixelNonTransparent (img : ImageData) (x y : ℤ) : Bool :=
  0 < img.alpha x y

/-- `isWithinBounds(x, y, width, height)`. -/
def isWithinBounds (img : ImageData) (x y : ℤ) : Bool :=
  0 ≤ x ∧ x < (img.width : ℤ) ∧ 0 ≤ y ∧ y < (img.height : ℤ)

/-- A blob/region accumulator: point list plus running bounding box. -/
structure Region where
  points : List (ℚ × ℚ)
  minX : ℚ
  maxX : ℚ
  minY : ℚ
  maxY : ℚ
deriving DecidableEq

/-- Recording one visited pixel into the region:
`region.points.push({x, y})` and the four min/max updates. -/
def recordPixel (r : Region) (x y : ℤ) : Region :=
  { points := r.points ++ [((x : ℚ), (y : ℚ))]
    minX := min r.minX (x : ℚ)
    maxX := max r.maxX (x : ℚ)
    minY := min r.minY (y : ℚ)
    maxY := max r.maxY (y : ℚ) }

/-- The 8-neighbourhood, in the order the code lists it. -/
def neighbors8 (x y : ℤ) : List (ℤ × ℤ) :=
  [(x + 1, y), (x - 1, y),
   (x, y + 1), (x, y - 1),
   (x + 1, y + 1), (x - 1, y - 1),
   (x + 1, y - 1), (x - 1, y + 1)]

/-- The loop body of `floodFill`: pop the queue's front; skip visited or
transparent pixels; otherwise mark the pixel visited, record it in the
region and push the in-bounds unvisited neighbours.  The JavaScript
`while (queue.length > 0)` loop terminates because every processed pixel
is newly marked visited and the queue grows by at most 8 entries per
processed pixel; the fuel `8 * width * height + 1` bounds the total
number of pops for the same reason, so it is never exhausted when
`floodFill` starts from an in-bounds pixel. -/
def floodFillAux (img : ImageData) :
    ℕ → List (ℤ × ℤ) → List (ℤ × ℤ) → Region → Region × List (ℤ × ℤ)
  | _, [], visited, reg => (reg, visited)
  | 0, _, visited, reg => (reg, visited)
  | fuel + 1, (x, y) :: rest, visited, reg =>
      if (x, y) ∈ visited then floodFillAux img fuel rest visited reg
      else if ¬isPixelNonTransparent img x y then floodFillAux img fuel rest visited reg
      else
        floodFillAux img fuel
          (rest ++ (neighbors8 x y).filter fun p =>
            isWithinBounds img p.1 p.2 && decide (p ∉ visited))
          ((x, y) :: visited)
          (recordPixel reg x y)

/-- `floodFill(imageData, startX, startY, visited)`: queue seeded with
the start pixel, region seeded with an empty point list and the start
pixel as bounding box. -/
def floodFill (img : ImageData) (startX startY : ℤ) (visited : List (ℤ × ℤ)) :
    Region × List (ℤ × ℤ) :=
  floodFillAux img (8 * img.width * img.height + 1) [(startX, startY)] visited
    { points := [], minX := (startX : ℚ), maxX := (startX : ℚ),
      minY := (startY : ℚ), maxY := (startY : ℚ) }

/-- The raster-order pixel list of the double scan loop
(`for y ... for x ...`). -/
def scanPixels (img : ImageData) : List (ℤ × ℤ) :=
  (List.range img.height).flatMap fun (y : ℕ) =>
    (List.range img.width).map fun (x : ℕ) => ((x : ℤ), (y : ℤ))

/-- State of the first-pass scan: the shared `visited` set and the
regions pushed so far. -/
structure ScanState where
  visited : List (ℤ × ℤ)
  regions : List Region
deriving DecidableEq

/-- One iteration of the first-pass scan: skip visited or transparent
pixels; otherwise flood fill and push the blob iff its point count
reaches `minRegionSize` (the `visited` set is updated either way). -/
def firstPassStep (img : ImageData) (minRegionSize : ℕ) (s : ScanState) (p : ℤ × ℤ) :
    ScanState :=
  if p ∈ s.visited then s
  else if ¬isPixelNonTransparent img p.1 p.2 then s
  else
    let res := floodFill img p.1 p.2 s.visited
    if minRegionSize ≤ res.1.points.length then
      { visited := res.2, regions := s.regions ++ [res.1] }
    else
      { visited := res.2, regions := s.regions }

/-- The first pass of `detectRegions`: the retained `initialRegions`. -/
def firstPass (img : ImageData) (minRegionSize : ℕ) : List Region :=
  ((scanPixels img).foldl (firstPassStep img minRegionSize) ⟨[], []⟩).regions

/-- The same scan with every flood-filled blob retained, regardless of
size; used to state which blobs the threshold discards. -/
def allBlobsStep (img : ImageData) (s : ScanState) (p : ℤ × ℤ) : ScanState :=
  if p ∈ s.visited then s
  else if ¬isPixelNonTransparent img p.1 p.2 then s
  else
    let res := floodFill img p.1 p.2 s.visited
    { visited := res.2, regions := s.regions ++ [res.1] }

/-- Every flood-filled blob the scan produces. -/
def allBlobs (img : ImageData) : List Region :=
  ((scanPixels img).foldl (allBlobsStep img) ⟨[], []⟩).regions

/-! `calculateRegionDistance(region1, region2)`
(`element-utils.js` lines 317-341). -/

/-- `xOverlap`: `!(r1.maxX < r2.minX || r1.minX > r2.maxX)`. -/
def xOverlap (r1 r2 : Region) : Prop :=
  ¬(r1.maxX < r2.minX ∨ r1.minX > r2.maxX)

/-- `yOverlap`: `!(r1.maxY < r2.minY || r1.minY > r2.maxY)`. -/
def yOverlap (r1 r2 : Region) : Prop :=
  ¬(r1.maxY < r2.minY ∨ r1.minY > r2.maxY)

instance (r1 r2 : Region) : Decidable (xOverlap r1 r2) := by
  unfold xOverlap; infer_instance

instance (r1 r2 : Region) : Decidable (yOverlap r1 r2) := by
  unfold yOverlap; infer_instance

/-- `dx`: `0` when the x-intervals overlap, else
`Math.min(Math.abs(r1.maxX - r2.minX), Math.abs(r1.minX - r2.maxX))`. -/
def regionDx (r1 r2 : Region) : ℚ :=
  if xOverlap r1 r2 then 0
  else min |r1.maxX - r2.minX| |r1.minX - r2.maxX|

/-- `dy`, the y-axis analogue of `regionDx`. -/
def regionDy (r1 r2 : Region) : ℚ :=
  if yOverlap r1 r2 then 0
  else min |r1.maxY - r2.minY| |r1.minY - r2.maxY|

/-- `calculateRegionDistance`: `0` when the boxes overlap on both axes,
else `Math.sqrt(dx * dx + dy * dy)`. -/
noncomputable def calculateRegionDistance (r1 r2 : Region) : ℝ :=
  if xOverlap r1 r2 ∧ yOverlap r1 r2 then 0
  else Real.sqrt ((regionDx r1 r2 : ℝ) ^ 2 + (regionDy r1 r2 : ℝ) ^ 2)

/-- The radicand of `calculateRegionDistance`, kept in `ℚ` so that the
merge loop below stays executable. -/
def calculateRegionDistanceSq (r1 r2 : Region) : ℚ :=
  if xOverlap r1 r2 ∧ yOverlap r1 r2 then 0
  else regionDx r1 r2 ^ 2 + regionDy r1 r2 ^ 2

/-- The merge condition `distance <= groupingDistance` of the code,
written on squares; `distWithin_iff` proves it equal to the code's
comparison of the real-valued distance. -/
def distWithin (r1 r2 : Region) (g : ℚ) : Bool :=
  decide (0 ≤ g) && decide (calculateRegionDistanceSq r1 r2 ≤ g ^ 2)

/-- `mergeRegions(region1, region2)`: concatenated point sets and the
union bounding box. -/
def mergeRegions (r1 r2 : Region) : Region :=
  { points := r1.points ++ r2.points
    minX := min r1.minX r2.minX
    maxX := max r1.maxX r2.maxX
    minY := min r1.minY r2.minY
    maxY := max r1.maxY r2.maxY }

/-- The inner double loop of the merge pass: the index (relative to the
current head) of the first region within `groupingDistance` of `r`. -/
def findNear (g : ℚ) (r : Region) : List Region → Option ℕ
  | [] => none
  | s :: rest =>
      if distWithin r s g then some 0
      else (findNear g r rest).map (· + 1)

/-- The lexicographically first pair `(i, j)` with `i < j` whose regions
are within `groupingDistance` — exactly the pair at which the code's
`for i / for j = i + 1` double loop breaks. -/
def findMergePair (g : ℚ) : List Region → Option (ℕ × ℕ)
  | [] => none
  | r :: rest =>
      match findNear g r rest with
      | some j => some (0, j + 1)
      | none => (findMergePair g rest).map fun p => (p.1 + 1, p.2 + 1)

/-- `initialRegions[i] = mergedRegion; initialRegions.splice(j, 1)`
(the code splices `j` first and then assigns `i`; since `i < j` the two
orders agree). -/
def mergeAt (l : List Region) (i j : ℕ) : List Region :=
  (l.set i (mergeRegions (l.getD i { points := [], minX := 0, maxX := 0, minY := 0, maxY := 0 })
    (l.getD j { points := [], minX := 0, maxX := 0, minY := 0, maxY := 0 }))).eraseIdx j

/-- The `while (merged)` loop: merge the first qualifying pair and
restart the scan, until no pair is within `groupingDistance`.  Each
merge removes one region, so the list length bounds the number of
iterations and serves as fuel. -/
def mergeLoopAux (g : ℚ) : ℕ → List Region → List Region
  | 0, l => l
  | fuel + 1, l =>
      match findMergePair g l with
      | none => l
      | some (i, j) => mergeLoopAux g fuel (mergeAt l i j)

/-- The merge pass over the retained first-pass regions. -/
def mergeLoop (l : List Region) (g : ℚ) : List Region :=
  mergeLoopAux g l.length l

/-- The output record `{id, bounds, elements}` of `detectRegions`. -/
structure OutRegion where
  id : ℕ
  bounds : Coords
  elements : List ℕ
deriving DecidableEq

/-- The final mapping of `detectRegions`: 1-based sequential ids, the
bounding box as `bounds`, and an empty `elements` list. -/
def toOutRegions (l : List Region) : List OutRegion :=
  l.enum.map fun p =>
    { id := p.1 + 1
      bounds := { x1 := p.2.minX, y1 := p.2.minY, x2 := p.2.maxX, y2 := p.2.maxY }
      elements := [] }

/-- `detectRegions(canvas, minRegionSize = 100, groupingDistance = 80)`:
flood-fill first pass, merge pass, output mapping.  The defaults `100`
and `80` are supplied by callers here because default arguments are not
used in this development. -/
def detectRegions (img : ImageData) (minRegionSize : ℕ) (groupingDistance : ℚ) :
    List OutRegion :=
  toOutRegions (mergeLoop (firstPass img minRegionSize) groupingDistance)

/-- The spec's notion of the gap between two axis intervals
`[lo1, hi1]` and `[lo2, hi2]`: zero when they overlap, else the length
of the empty space between them. -/
def axisGap (lo1 hi1 lo2 hi2 : ℚ) : ℚ :=
  max 0 (max lo1 lo2 - min hi1 hi2)

/-! ## Theorems about the inter-region distance -/

lemma axisGap_of_overlap {a1 b1 a2 b2 : ℚ} (h1 : a1 ≤ b1) (h2 : a2 ≤ b2)
    (hov : ¬(b1 < a2 ∨ a1 > b2)) : axisGap a1 b1 a2 b2 = 0 := by
  push_neg at hov
  exact max_eq_left (sub_nonpos.mpr (max_le (le_min h1 hov.2) (le_min hov.1 h2)))

lemma axisGap_pos {a1 b1 a2 b2 : ℚ} (hno : b1 < a2 ∨ a1 > b2) :
    0 < axisGap a1 b1 a2 b2 := by
  unfold axisGap
  rcases hno with h | h
  · exact lt_max_of_lt_right (sub_pos.mpr ((min_le_left b1 b2).trans_lt
      (h.trans_le (le_max_right a1 a2))))
  · exact lt_max_of_lt_right (sub_pos.mpr ((min_le_right b1 b2).trans_lt
      (h.trans_le (le_max_left a1 a2))))

lemma min_abs_eq_axisGap {a1 b1 a2 b2 : ℚ} (h1 : a1 ≤ b1) (h2 : a2 ≤ b2)
    (hno : b1 < a2 ∨ a1 > b2) :
    min |b1 - a2| |a1 - b2| = axisGap a1 b1 a2 b2 := by
  unfold axisGap
  rcases hno with h | h
  · rw [abs_of_nonpos (by linarith), abs_of_nonpos (by linarith), neg_sub, neg_sub,
      min_eq_left (by linarith), max_eq_right (by linarith : a1 ≤ a2),
      min_eq_left (by linarith : b1 ≤ b2), max_eq_right (by linarith)]
  · rw [abs_of_nonneg (by linarith), abs_of_nonneg (by linarith),
      min_eq_right (by linarith), max_eq_left (by linarith : a2 ≤ a1),
      min_eq_right (by linarith : b2 ≤ b1), max_eq_right (by linarith)]

lemma regionDx_eq_axisGap {r1 r2 : Region}
    (h1 : r1.minX ≤ r1.maxX) (h2 : r2.minX ≤ r2.maxX) :
    regionDx r1 r2 = axisGap r1.minX r1.maxX r2.minX r2.maxX := by
  unfold regionDx
  by_cases h : xOverlap r1 r2
  · rw [if_pos h, axisGap_of_overlap h1 h2 h]
  · rw [if_neg h]
    exact min_abs_eq_axisGap h1 h2 (not_not.mp h)

lemma regionDy_eq_axisGap {r1 r2 : Region}
    (h1 : r1.minY ≤ r1.maxY) (h2 : r2.minY ≤ r2.maxY) :
    regionDy r1 r2 = axisGap r1.minY r1.maxY r2.minY r2.maxY := by
  unfold regionDy
  by_cases h : yOverlap r1 r2
  · rw [if_pos h, axisGap_of_overlap h1 h2 h]
  · rw [if_neg h]
    exact min_abs_eq_axisGap h1 h2 (not_not.mp h)

/-- Claim C3: for regions with well-formed bounding boxes, the
inter-region distance is `0` exactly when the boxes overlap on both
axes, and in general it equals `sqrt(dx² + dy²)` where `dx` and `dy`
are the axis gaps (zero on an overlapping axis). -/
theorem calculateRegionDistance_axis_characterization (r1 r2 : Region)
    (h1x : r1.minX ≤ r1.maxX) (h1y : r1.minY ≤ r1.maxY)
    (h2x : r2.minX ≤ r2.maxX) (h2y : r2.minY ≤ r2.maxY) :
    (calculateRegionDistance r1 r2 = 0 ↔ xOverlap r1 r2 ∧ yOverlap r1 r2) ∧
    calculateRegionDistance r1 r2 =
      Real.sqrt ((axisGap r1.minX r1.maxX r2.minX r2.maxX : ℝ) ^ 2 +
        (axisGap r1.minY r1.maxY r2.minY r2.maxY : ℝ) ^ 2) := by
  have hmain : calculateRegionDistance r1 r2 =
      Real.sqrt ((axisGap r1.minX r1.maxX r2.minX r2.maxX : ℝ) ^ 2 +
        (axisGap r1.minY r1.maxY r2.minY r2.maxY : ℝ) ^ 2) := by
    unfold calculateRegionDistance
    split_ifs with h
    · rw [axisGap_of_overlap h1x h2x h.1, axisGap_of_overlap h1y h2y h.2]
      norm_num
    · rw [regionDx_eq_axisGap h1x h2x, regionDy_eq_axisGap h1y h2y]
  refine ⟨?_, hmain⟩
  rw [hmain]
  constructor
  · intro h0
    by_contra hno
    rw [Real.sqrt_eq_zero'] at h0
    rcases not_and_or.mp hno with hnx | hny
    · have hpos : (0 : ℚ) < axisGap r1.minX r1.maxX r2.minX r2.maxX :=
        axisGap_pos (not_not.mp hnx)
      have : (0 : ℝ) < (axisGap r1.minX r1.maxX r2.minX r2.maxX : ℝ) ^ 2 +
          (axisGap r1.minY r1.maxY r2.minY r2.maxY : ℝ) ^ 2 :=
        add_pos_of_pos_of_nonneg (pow_pos (by exact_mod_cast hpos) 2) (sq_nonneg _)
      linarith
    · have hpos : (0 : ℚ) < axisGap r1.minY r1.maxY r2.minY r2.maxY :=
        axisGap_pos (not_not.mp hny)
      have : (0 : ℝ) < (axisGap r1.minX r1.maxX r2.minX r2.maxX : ℝ) ^ 2 +
          (axisGap r1.minY r1.maxY r2.minY r2.maxY : ℝ) ^ 2 :=
        add_pos_of_nonneg_of_pos (sq_nonneg _) (pow_pos (by exact_mod_cast hpos) 2)
      linarith
  · intro h
    rw [axisGap_of_overlap h1x h2x h.1, axisGap_of_overlap h1y h2y h.2]
    norm_num

/-- Witness for C3 at concrete regions: boxes `[0,1]×[0,1]` and
`[3,5]×[0,1]` (x-gap `2`, y-overlap). -/
theorem calculateRegionDistance_axis_characterization_witness :
    (calculateRegionDistance ⟨[], 0, 1, 0, 1⟩ ⟨[], 3, 5, 0, 1⟩ = 0 ↔
      xOverlap ⟨[], 0, 1, 0, 1⟩ ⟨[], 3, 5, 0, 1⟩ ∧
        yOverlap ⟨[], 0, 1, 0, 1⟩ ⟨[], 3, 5, 0, 1⟩) ∧
    calculateRegionDistance ⟨[], 0, 1, 0, 1⟩ ⟨[], 3, 5, 0, 1⟩ =
      Real.sqrt ((axisGap 0 1 3 5 : ℝ) ^ 2 + (axisGap 0 1 0 1 : ℝ) ^ 2) :=
  calculateRegionDistance_axis_characterization ⟨[], 0, 1, 0, 1⟩ ⟨[], 3, 5, 0, 1⟩
    (by decide) (by decide) (by decide) (by decide)

lemma xOverlap_comm (r1 r2 : Region) : xOverlap r1 r2 ↔ xOverlap r2 r1 := by
  unfold xOverlap
  exact ⟨fun h hc => h (hc.elim Or.inr Or.inl), fun h hc => h (hc.elim Or.inr Or.inl)⟩

lemma yOverlap_comm (r1 r2 : Region) : yOverlap r1 r2 ↔ yOverlap r2 r1 := by
  unfold yOverlap
  exact ⟨fun h hc => h (hc.elim Or.inr Or.inl), fun h hc => h (hc.elim Or.inr Or.inl)⟩

lemma regionDx_comm (r1 r2 : Region) : regionDx r1 r2 = regionDx r2 r1 := by
  unfold regionDx
  by_cases h : xOverlap r1 r2
  · rw [if_pos h, if_pos ((xOverlap_comm r1 r2).mp h)]
  · rw [if_neg h, if_neg (fun hc => h ((xOverlap_comm r2 r1).mp hc)),
      abs_sub_comm r1.maxX r2.minX, abs_sub_comm r1.minX r2.maxX, min_comm]

lemma regionDy_comm (r1 r2 : Region) : regionDy r1 r2 = regionDy r2 r1 := by
  unfold regionDy
  by_cases h : yOverlap r1 r2
  · rw [if_pos h, if_pos ((yOverlap_comm r1 r2).mp h)]
  · rw [if_neg h, if_neg (fun hc => h ((yOverlap_comm r2 r1).mp hc)),
      abs_sub_comm r1.maxY r2.minY, abs_sub_comm r1.minY r2.maxY, min_comm]

/-- Claim C10: the inter-region distance is symmetric. -/
theorem calculateRegionDistance_symm (r1 r2 : Region) :
    calculateRegionDistance r1 r2 = calculateRegionDistance r2 r1 := by
  unfold calculateRegionDistance
  split_ifs with h h' h'
  · rfl
  · exact absurd ⟨(xOverlap_comm r1 r2).mp h.1, (yOverlap_comm r1 r2).mp h.2⟩ h'
  · exact absurd ⟨(xOverlap_comm r2 r1).mp h'.1, (yOverlap_comm r2 r1).mp h'.2⟩ h
  · rw [regionDx_comm, regionDy_comm]

/-- The merge condition used in the embedding coincides with the code's
comparison `calculateRegionDistance(...) <= groupingDistance`. -/
lemma distWithin_iff (r1 r2 : Region) (g : ℚ) :
    distWithin r1 r2 g = true ↔ calculateRegionDistance r1 r2 ≤ (g : ℝ) := by
  unfold distWithin calculateRegionDistance calculateRegionDistanceSq
  split_ifs with h
  · simp only [Bool.and_eq_true, decide_eq_true_eq]
    constructor
    · intro hg
      exact_mod_cast hg.1
    · intro hg
      refine ⟨by exact_mod_cast hg, ?_⟩
      positivity
  · simp only [Bool.and_eq_true, decide_eq_true_eq]
    rw [show ((regionDx r1 r2 : ℝ) ^ 2 + (regionDy r1 r2 : ℝ) ^ 2) =
        ((regionDx r1 r2 ^ 2 + regionDy r1 r2 ^ 2 : ℚ) : ℝ) by push_cast; ring,
      Real.sqrt_le_iff]
    constructor
    · intro hg
      exact ⟨by exact_mod_cast hg.1, by exact_mod_cast hg.2⟩
    · intro hg
      exact ⟨by exact_mod_cast hg.1, by exact_mod_cast hg.2⟩

/-! ## Theorems about the first pass of region detection -/

lemma firstPassStep_mem {img : ImageData} {m : ℕ} {v : List (ℤ × ℤ)}
    {r : List Region} {p : ℤ × ℤ} (hv : p ∈ v) :
    firstPassStep img m ⟨v, r⟩ p = ⟨v, r⟩ := by
  simp only [firstPassStep]
  rw [if_pos hv]

lemma allBlobsStep_mem {img : ImageData} {v : List (ℤ × ℤ)}
    {r : List Region} {p : ℤ × ℤ} (hv : p ∈ v) :
    allBlobsStep img ⟨v, r⟩ p = ⟨v, r⟩ := by
  simp only [allBlobsStep]
  rw [if_pos hv]

lemma firstPassStep_transparent {img : ImageData} {m : ℕ} {v : List (ℤ × ℤ)}
    {r : List Region} {p : ℤ × ℤ} (hv : p ∉ v)
    (ho : isPixelNonTransparent img p.1 p.2 = false) :
    firstPassStep img m ⟨v, r⟩ p = ⟨v, r⟩ := by
  simp only [firstPassStep]
  rw [if_neg hv, if_pos (by simp [ho])]

lemma allBlobsStep_transparent {img : ImageData} {v : List (ℤ × ℤ)}
    {r : List Region} {p : ℤ × ℤ} (hv : p ∉ v)
    (ho : isPixelNonTransparent img p.1 p.2 = false) :
    allBlobsStep img ⟨v, r⟩ p = ⟨v, r⟩ := by
  simp only [allBlobsStep]
  rw [if_neg hv, if_pos (by simp [ho])]

lemma firstPassStep_filled {img : ImageData} {m : ℕ} {v : List (ℤ × ℤ)}
    {r : List Region} {p : ℤ × ℤ} (hv : p ∉ v)
    (ho : isPixelNonTransparent img p.1 p.2 = true) :
    firstPassStep img m ⟨v, r⟩ p =
      if m ≤ (floodFill img p.1 p.2 v).1.points.length then
        ⟨(floodFill img p.1 p.2 v).2, r ++ [(floodFill img p.1 p.2 v).1]⟩
      else ⟨(floodFill img p.1 p.2 v).2, r⟩ := by
  simp only [firstPassStep]
  rw [if_neg hv, if_neg (by simp [ho])]

lemma allBlobsStep_filled {img : ImageData} {v : List (ℤ × ℤ)}
    {r : List Region} {p : ℤ × ℤ} (hv : p ∉ v)
    (ho : isPixelNonTransparent img p.1 p.2 = true) :
    allBlobsStep img ⟨v, r⟩ p =
      ⟨(floodFill img p.1 p.2 v).2, r ++ [(floodFill img p.1 p.2 v).1]⟩ := by
  simp only [allBlobsStep]
  rw [if_neg hv, if_neg (by simp [ho])]

lemma scan_filter_rel (img : ImageData) (m : ℕ) :
    ∀ (ps : List (ℤ × ℤ)) (v : List (ℤ × ℤ)) (r2 : List Region),
      (ps.foldl (firstPassStep img m)
          ⟨v, r2.filter fun r => decide (m ≤ r.points.length)⟩).regions =
        ((ps.foldl (allBlobsStep img) ⟨v, r2⟩).regions).filter
          (fun r => decide (m ≤ r.points.length)) := by
  intro ps
  induction ps with
  | nil => intro v r2; rfl
  | cons p ps ih =>
      intro v r2
      rw [List.foldl_cons, List.foldl_cons]
      by_cases hv : p ∈ v
      · rw [firstPassStep_mem hv, allBlobsStep_mem hv]
        exact ih v r2
      · cases ho : isPixelNonTransparent img p.1 p.2 with
        | false =>
            rw [firstPassStep_transparent hv ho, allBlobsStep_transparent hv ho]
            exact ih v r2
        | true =>
            rw [firstPassStep_filled hv ho, allBlobsStep_filled hv ho]
            by_cases hlen : m ≤ (floodFill img p.1 p.2 v).1.points.length
            · rw [if_pos hlen]
              have harr : (r2.filter fun r => decide (m ≤ r.points.length)) ++
                  [(floodFill img p.1 p.2 v).1] =
                  (r2 ++ [(floodFill img p.1 p.2 v).1]).filter
                    (fun r => decide (m ≤ r.points.length)) := by
                rw [List.filter_append]
                simp [hlen]
              rw [harr]
              exact ih (floodFill img p.1 p.2 v).2 (r2 ++ [(floodFill img p.1 p.2 v).1])
            · rw [if_neg hlen]
              have harr : (r2.filter fun r => decide (m ≤ r.points.length)) =
                  (r2 ++ [(floodFill img p.1 p.2 v).1]).filter
                    (fun r => decide (m ≤ r.points.length)) := by
                rw [List.filter_append]
                simp [hlen]
              rw [harr]
              exact ih (floodFill img p.1 p.2 v).2 (r2 ++ [(floodFill img p.1 p.2 v).1])

lemma mem_scanPixels {img : ImageData} {p : ℤ × ℤ} (h : p ∈ scanPixels img) :
    0 ≤ p.1 ∧ p.1 < (img.width : ℤ) ∧ 0 ≤ p.2 ∧ p.2 < (img.height : ℤ) := by
  unfold scanPixels at h
  rw [List.mem_flatMap] at h
  obtain ⟨y, hy, hmem⟩ := h
  rw [List.mem_map] at hmem
  obtain ⟨x, hx, hpx⟩ := hmem
  rw [List.mem_range] at hy hx
  subst hpx
  refine ⟨Int.natCast_nonneg x, ?_, Int.natCast_nonneg y, ?_⟩
  · show (x : ℤ) < (img.width : ℤ)
    exact_mod_cast hx
  · show (y : ℤ) < (img.height : ℤ)
    exact_mod_cast hy

lemma foldl_firstPassStep_transparent (img : ImageData) (m : ℕ) :
    ∀ (ps : List (ℤ × ℤ)),
      (∀ p ∈ ps, isPixelNonTransparent img p.1 p.2 = false) →
      ∀ s : ScanState, ps.foldl (firstPassStep img m) s = s := by
  intro ps
  induction ps with
  | nil => intro _ s; rfl
  | cons p ps ih =>
      intro h s
      rw [List.foldl_cons]
      have hstep : firstPassStep img m s p = s := by
        obtain ⟨v, r⟩ := s
        by_cases hv : p ∈ v
        · exact firstPassStep_mem hv
        · exact firstPassStep_transparent hv (h p (List.mem_cons_self p ps))
      rw [hstep]
      exact ih (fun q hq => h q (List.mem_cons_of_mem p hq)) s

/-- Claim C4: a flood-filled blob found by the scan is retained in the
first-pass region list exactly when its pixel count reaches
`minRegionSize` (default `100`) — the retained list is the blob list
filtered by that threshold — and a raster with no opaque pixel makes
`detectRegions` return the empty region list rather than an error. -/
theorem detectRegions_threshold_and_empty :
    (∀ (img : ImageData) (m : ℕ),
        firstPass img m = (allBlobs img).filter fun r => decide (m ≤ r.points.length)) ∧
    (∀ (img : ImageData) (m : ℕ) (g : ℚ),
        (∀ x y : ℤ, 0 ≤ x → x < (img.width : ℤ) → 0 ≤ y → y < (img.height : ℤ) →
          img.alpha x y = 0) →
        detectRegions img m g = []) := by
  constructor
  · intro img m
    exact scan_filter_rel img m (scanPixels img) [] []
  · intro img m g h
    have hfp : firstPass img m = [] := by
      unfold firstPass
      rw [foldl_firstPassStep_transparent img m (scanPixels img) ?_ ⟨[], []⟩]
      intro p hp
      obtain ⟨h1, h2, h3, h4⟩ := mem_scanPixels hp
      simp only [isPixelNonTransparent]
      rw [h p.1 p.2 h1 h2 h3 h4]
      rfl
    unfold detectRegions
    rw [hfp]
    rfl

/-- Witness for C4: a fully transparent 2×2 raster yields no regions,
via the theorem at that concrete raster. -/
theorem detectRegions_threshold_and_empty_witness :
    detectRegions ⟨2, 2, fun _ _ => 0⟩ 100 80 = [] :=
  detectRegions_threshold_and_empty.2 ⟨2, 2, fun _ _ => 0⟩ 100 80
    (fun _ _ _ _ _ _ => rfl)

/-! ## Theorems about the merge pass -/

/-- A well-formed bounding box. -/
def validBox (r : Region) : Prop :=
  r.minX ≤ r.maxX ∧ r.minY ≤ r.maxY

lemma validBox_recordPixel {r : Region} (h : validBox r) (x y : ℤ) :
    validBox (recordPixel r x y) :=
  ⟨le_trans (min_le_left _ _) (le_trans h.1 (le_max_left _ _)),
    le_trans (min_le_left _ _) (le_trans h.2 (le_max_left _ _))⟩

lemma floodFillAux_valid (img : ImageData) :
    ∀ (fuel : ℕ) (queue visited : List (ℤ × ℤ)) (reg : Region), validBox reg →
      validBox (floodFillAux img fuel queue visited reg).1 := by
  intro fuel
  induction fuel with
  | zero =>
      intro queue v reg h
      cases queue with
      | nil => exact h
      | cons q rest => exact h
  | succ fuel ih =>
      intro queue v reg h
      cases queue with
      | nil => exact h
      | cons q rest =>
          obtain ⟨x, y⟩ := q
          simp only [floodFillAux]
          split_ifs with h1 h2
          · exact ih rest v reg h
          · exact ih _ _ _ (validBox_recordPixel h x y)
          · exact ih rest v reg h

lemma floodFill_valid (img : ImageData) (sx sy : ℤ) (v : List (ℤ × ℤ)) :
    validBox (floodFill img sx sy v).1 :=
  floodFillAux_valid img _ _ _ _ ⟨le_refl _, le_refl _⟩

lemma foldl_firstPassStep_valid (img : ImageData) (m : ℕ) :
    ∀ (ps : List (ℤ × ℤ)) (s : ScanState),
      (∀ r ∈ s.regions, validBox r) →
      ∀ r ∈ (ps.foldl (firstPassStep img m) s).regions, validBox r := by
  intro ps
  induction ps with
  | nil => intro s h; exact h
  | cons p ps ih =>
      intro s h
      rw [List.foldl_cons]
      apply ih
      obtain ⟨v, regs⟩ := s
      by_cases hv : p ∈ v
      · rw [firstPassStep_mem hv]
        exact h
      · cases ho : isPixelNonTransparent img p.1 p.2 with
        | false =>
            rw [firstPassStep_transparent hv ho]
            exact h
        | true =>
            rw [firstPassStep_filled hv ho]
            split_ifs with hlen
            · intro r hr
              rcases List.mem_append.mp hr with hr | hr
              · exact h r hr
              · rw [List.mem_singleton] at hr
                subst hr
                exact floodFill_valid img p.1 p.2 v
            · exact h

lemma firstPass_valid (img : ImageData) (m : ℕ) :
    ∀ r ∈ firstPass img m, validBox r :=
  foldl_firstPassStep_valid img m (scanPixels img) ⟨[], []⟩ (fun r hr => absurd hr
    (List.not_mem_nil r))

lemma validBox_mergeRegions_right {A B : Region} (hB : validBox B) :
    validBox (mergeRegions A B) :=
  ⟨le_trans (min_le_right _ _) (le_trans hB.1 (le_max_right _ _)),
    le_trans (min_le_right _ _) (le_trans hB.2 (le_max_right _ _))⟩

lemma axisGap_nonneg (a1 b1 a2 b2 : ℚ) : 0 ≤ axisGap a1 b1 a2 b2 :=
  le_max_left _ _

lemma axisGap_mono_left {a1 b1 a2 b2 a1' b1' : ℚ} (ha : a1' ≤ a1) (hb : b1 ≤ b1') :
    axisGap a1' b1' a2 b2 ≤ axisGap a1 b1 a2 b2 := by
  unfold axisGap
  exact max_le_max le_rfl (sub_le_sub (max_le_max ha le_rfl) (min_le_min hb le_rfl))

lemma distSq_eq_gaps {r1 r2 : Region} (h1 : validBox r1) (h2 : validBox r2) :
    calculateRegionDistanceSq r1 r2 =
      axisGap r1.minX r1.maxX r2.minX r2.maxX ^ 2 +
        axisGap r1.minY r1.maxY r2.minY r2.maxY ^ 2 := by
  unfold calculateRegionDistanceSq
  split_ifs with h
  · rw [axisGap_of_overlap h1.1 h2.1 h.1, axisGap_of_overlap h1.2 h2.2 h.2]
    norm_num
  · rw [regionDx_eq_axisGap h1.1 h2.1, regionDy_eq_axisGap h1.2 h2.2]

/-- Merging extra area into one region cannot move it farther from a
third region: the union bounding box only enlarges the intervals, which
only shrinks the axis gaps. -/
lemma distWithin_mergeRegions_left {A B C : Region} {g : ℚ}
    (hB : validBox B) (hC : validBox C)
    (h : distWithin B C g = true) : distWithin (mergeRegions A B) C g = true := by
  unfold distWithin at h ⊢
  rw [Bool.and_eq_true, decide_eq_true_eq, decide_eq_true_eq] at h ⊢
  refine ⟨h.1, le_trans ?_ h.2⟩
  rw [distSq_eq_gaps (validBox_mergeRegions_right hB) hC, distSq_eq_gaps hB hC]
  have hgx : axisGap (mergeRegions A B).minX (mergeRegions A B).maxX C.minX C.maxX ≤
      axisGap B.minX B.maxX C.minX C.maxX :=
    axisGap_mono_left (min_le_right _ _) (le_max_right _ _)
  have hgy : axisGap (mergeRegions A B).minY (mergeRegions A B).maxY C.minY C.maxY ≤
      axisGap B.minY B.maxY C.minY C.maxY :=
    axisGap_mono_left (min_le_right _ _) (le_max_right _ _)
  exact add_le_add (pow_le_pow_left₀ (axisGap_nonneg _ _ _ _) hgx 2)
    (pow_le_pow_left₀ (axisGap_nonneg _ _ _ _) hgy 2)

lemma findNear_none {g : ℚ} {r : Region} :
    ∀ {l : List Region}, findNear g r l = none → ∀ s ∈ l, distWithin r s g = false := by
  intro l
  induction l with
  | nil => intro _ s hs; exact absurd hs (List.not_mem_nil s)
  | cons a rest ih =>
      intro h s hs
      rw [findNear] at h
      by_cases hd : distWithin r a g = true
      · rw [if_pos hd] at h
        exact absurd h (by simp)
      · rw [if_neg hd] at h
        rcases List.mem_cons.mp hs with rfl | hs
        · exact Bool.eq_false_iff.mpr hd
        · exact ih (Option.map_eq_none'.mp h) s hs

lemma findNear_some_lt {g : ℚ} {r : Region} :
    ∀ {l : List Region} {j : ℕ}, findNear g r l = some j → j < l.length := by
  intro l
  induction l with
  | nil => intro j h; exact absurd h (by simp [findNear])
  | cons a rest ih =>
      intro j h
      rw [findNear] at h
      by_cases hd : distWithin r a g = true
      · rw [if_pos hd] at h
        obtain rfl := Option.some.inj h
        exact Nat.succ_pos _
      · rw [if_neg hd] at h
        obtain ⟨j', hj', rfl⟩ := Option.map_eq_some'.mp h
        exact Nat.succ_lt_succ (ih hj')

lemma findMergePair_none {g : ℚ} :
    ∀ {l : List Region}, findMergePair g l = none →
      l.Pairwise fun a b => distWithin a b g = false := by
  intro l
  induction l with
  | nil => intro _; exact List.Pairwise.nil
  | cons r rest ih =>
      intro h
      rw [findMergePair] at h
      cases hfn : findNear g r rest with
      | some j => rw [hfn] at h; exact absurd h (by simp)
      | none =>
          rw [hfn] at h
          exact List.Pairwise.cons (findNear_none hfn) (ih (Option.map_eq_none'.mp h))

lemma findMergePair_some_lt {g : ℚ} :
    ∀ {l : List Region} {i j : ℕ}, findMergePair g l = some (i, j) → j < l.length := by
  intro l
  induction l with
  | nil => intro i j h; exact absurd h (by simp [findMergePair])
  | cons r rest ih =>
      intro i j h
      rw [findMergePair] at h
      cases hfn : findNear g r rest with
      | some j' =>
          rw [hfn] at h
          obtain ⟨-, rfl⟩ := Prod.mk.inj (Option.some.inj h)
          exact Nat.succ_lt_succ (findNear_some_lt hfn)
      | none =>
          rw [hfn] at h
          obtain ⟨⟨i', j'⟩, hij, hpair⟩ := Option.map_eq_some'.mp h
          obtain ⟨-, rfl⟩ := Prod.mk.inj hpair
          exact Nat.succ_lt_succ (ih hij)

lemma length_mergeAt {l : List Region} {i j : ℕ} (hj : j < l.length) :
    (mergeAt l i j).length + 1 = l.length := by
  unfold mergeAt
  rw [List.length_eraseIdx_add_one (by rw [List.length_set]; exact hj), List.length_set]

lemma mergeLoopAux_succ (g : ℚ) (fuel : ℕ) (l : List Region) :
    mergeLoopAux g (fuel + 1) l =
      match findMergePair g l with
      | none => l
      | some (i, j) => mergeLoopAux g fuel (mergeAt l i j) := rfl

/-- When the loop's fuel covers the list length the result has no pair
of regions within the grouping distance: the loop only returns when the
inner scan finds no pair. -/
lemma mergeLoopAux_pairwise (g : ℚ) :
    ∀ (fuel : ℕ) (l : List Region), l.length ≤ fuel →
      (mergeLoopAux g fuel l).Pairwise fun a b => distWithin a b g = false := by
  intro fuel
  induction fuel with
  | zero =>
      intro l hl
      rw [List.length_eq_zero.mp (Nat.le_zero.mp hl)]
      exact List.Pairwise.nil
  | succ fuel ih =>
      intro l hl
      rw [mergeLoopAux_succ]
      cases hf : findMergePair g l with
      | none => exact findMergePair_none hf
      | some p =>
          obtain ⟨i, j⟩ := p
          have hj := findMergePair_some_lt hf
          apply ih
          have := length_mergeAt (l := l) (i := i) hj
          omega

/-- Claim C2: when the first pass yields exactly three blobs `A`, `B`,
`C` with `A`–`B` and `B`–`C` within the grouping distance but `A`–`C`
beyond it, `detectRegions` returns exactly one region whose bounds are
the union of the three bounding boxes; and the merge loop stops only
when no two remaining regions are within the grouping distance. -/
theorem detectRegions_merge_transitive (img : ImageData) (m : ℕ) (g : ℚ)
    (A B C : Region)
    (hfp : firstPass img m = [A, B, C])
    (hAB : distWithin A B g = true)
    (hBC : distWithin B C g = true)
    (_hAC : distWithin A C g = false) :
    detectRegions img m g =
      [{ id := 1,
         bounds := { x1 := min (min A.minX B.minX) C.minX,
                     y1 := min (min A.minY B.minY) C.minY,
                     x2 := max (max A.maxX B.maxX) C.maxX,
                     y2 := max (max A.maxY B.maxY) C.maxY },
         elements := [] }] ∧
    (∀ l : List Region, (mergeLoop l g).Pairwise fun a b => distWithin a b g = false) := by
  have hB : validBox B := firstPass_valid img m B (by rw [hfp]; simp)
  have hC : validBox C := firstPass_valid img m C (by rw [hfp]; simp)
  have hMC : distWithin (mergeRegions A B) C g = true :=
    distWithin_mergeRegions_left hB hC hBC
  have hfind1 : findMergePair g [A, B, C] = some (0, 1) := by
    simp only [findMergePair, findNear, hAB, if_true]
  have hmerge1 : mergeAt [A, B, C] 0 1 = [mergeRegions A B, C] := rfl
  have hfind2 : findMergePair g [mergeRegions A B, C] = some (0, 1) := by
    simp only [findMergePair, findNear, hMC, if_true]
  have hmerge2 : mergeAt [mergeRegions A B, C] 0 1 =
      [mergeRegions (mergeRegions A B) C] := rfl
  have hloop : mergeLoop [A, B, C] g = [mergeRegions (mergeRegions A B) C] := by
    unfold mergeLoop
    show mergeLoopAux g (2 + 1) [A, B, C] = _
    rw [mergeLoopAux_succ, hfind1]
    show mergeLoopAux g (1 + 1) (mergeAt [A, B, C] 0 1) = _
    rw [hmerge1, mergeLoopAux_succ, hfind2]
    show mergeLoopAux g (0 + 1) (mergeAt [mergeRegions A B, C] 0 1) = _
    rw [hmerge2, mergeLoopAux_succ]
    rfl
  constructor
  · unfold detectRegions
    rw [hfp, hloop]
    rfl
  · intro l
    exact mergeLoopAux_pairwise g l.length l le_rfl

/-- Witness for C2: a 5×1 raster with single opaque pixels at `x = 0`,
`2`, `4`, threshold `1` and grouping distance `2` — the three
single-pixel blobs merge transitively into one region spanning
`[0, 4] × [0, 0]`. -/
theorem detectRegions_merge_transitive_witness :
    detectRegions ⟨5, 1, fun x y => if y = 0 ∧ (x = 0 ∨ x = 2 ∨ x = 4) then 255 else 0⟩
        1 2 =
      [{ id := 1,
         bounds := { x1 := min (min 0 2) 4, y1 := min (min 0 0) 0,
                     x2 := max (max 0 2) 4, y2 := max (max 0 0) 0 },
         elements := [] }] ∧
    (∀ l : List Region,
      (mergeLoop l 2).Pairwise fun a b => distWithin a b 2 = false) :=
  detectRegions_merge_transitive
    ⟨5, 1, fun x y => if y = 0 ∧ (x = 0 ∨ x = 2 ∨ x = 4) then 255 else 0⟩ 1 2
    ⟨[(0, 0)], 0, 0, 0, 0⟩ ⟨[(2, 0)], 2, 2, 0, 0⟩ ⟨[(4, 0)], 4, 4, 0, 0⟩
    (by decide)
    (by norm_num [distWithin, calculateRegionDistanceSq, regionDx, regionDy,
      xOverlap, yOverlap])
    (by norm_num [distWithin, calculateRegionDistanceSq, regionDx, regionDy,
      xOverlap, yOverlap])
    (by norm_num [distWithin, calculateRegionDistanceSq, regionDx, regionDy,
      xOverlap, yOverlap])

end DrawingApp
